import Mathlib

/-!
Peer discovery of `network/discovery/outgoing.go`

A shallow embedding of `bootstrapPeers`, the iterative Kademlia-style lookup of
the `discovery` package, together with the properties of its result.

* Peer identifiers (`peer.ID`) are an address and a public key, the key being a
  list of bytes (natural numbers, reduced modulo 256 where bytes are combined).
* The routing table is not part of the file: the value returned by
  `net.Routes.FindClosestPeers(target, alpha)` is the argument `seed`.  The
  table holds every key once; where a statement needs it, this is the
  hypothesis that the keys of `seed` are pairwise distinct.
* Identifiers have a fixed width.  `Xor` is defined for two identifiers of the
  same width only, and the statements about the order of the output assume that
  the accumulated peers have the width of the target.
* `go queryPeer(...)` starts a task that sends exactly one value on the channel
  `responses`.  The values the coordinator receives from the channel, in order of
  arrival, are the argument `resps`; the contact peers of the started tasks are
  logged in the ghost field `launched` of the state.
* `queryPeer` is embedded as the sequence of its actions (dial, request, send),
  `Dial` and `Request` returning a value or an error.  `networkLookup` joins the
  two: every received value is the one sent by the task of an outstanding query,
  chosen by an arrival order.
* A response is a slice of pointers to identifiers; the loop dereferences each
  of them, so the entries are taken to be non-nil and a response is a list of
  identifiers.
* `alpha` and `pending` are Go `int`s.  `pending` only moves between `0` and
  `alpha`, so no wrap-around can occur and they are modelled by `Int`.
* `dht.BucketSize` is a constant of another package: it is the argument
  `bucketSize`.
-/

namespace Discovery

/-! ## Identifiers and the distance metric -/

/-- Peer identifier `peer.ID`: a network address and a public key (bytes). -/
structure ID where
  Address : String
  PublicKey : List Nat
  deriving DecidableEq, Repr

/-- One hexadecimal digit, for a value below sixteen. -/
def hexDigit (n : Nat) : Char :=
  match n with
  | 0 => '0' | 1 => '1' | 2 => '2' | 3 => '3'
  | 4 => '4' | 5 => '5' | 6 => '6' | 7 => '7'
  | 8 => '8' | 9 => '9' | 10 => 'a' | 11 => 'b'
  | 12 => 'c' | 13 => 'd' | 14 => 'e' | _ => 'f'

/-- Modelled from the spec: `PublicKeyHex` of `peer.ID` is declared outside this
file.  The spec describes it as the canonical deduplication key of an
identifier, a hex encoding of the identifier bytes: two digits per byte. -/
def ID.PublicKeyHex (id : ID) : String :=
  String.mk ((id.PublicKey.map fun b => [hexDigit (b / 16 % 16), hexDigit (b % 16)]).flatten)

/-- Bytewise XOR of two byte strings of the same width. -/
def xorBytes (a b : List Nat) : List Nat :=
  List.zipWith (fun x y => (x ^^^ y) % 256) a b

/-- Modelled from the spec: `Xor` of `peer.ID` is declared outside this file.
The spec describes it as the bytewise XOR of the two identifier byte strings,
which fails only if the two have mismatched byte widths.  The failure is the
value `none`; the result keeps the address of the receiver. -/
def ID.Xor (id other : ID) : Option ID :=
  if id.PublicKey.length = other.PublicKey.length then
    some { Address := id.Address, PublicKey := xorBytes id.PublicKey other.PublicKey }
  else none

/-- Value of a byte string read as an unsigned big-endian number. -/
def magnitude (bytes : List Nat) : Nat :=
  bytes.foldl (fun acc b => acc * 256 + b % 256) 0

/-- Modelled from the spec: `Less` of `peer.ID` is declared outside this file.
The spec describes it as the comparison of two distances as unsigned
(big-endian) magnitudes. -/
def ID.Less (left right : ID) : Bool :=
  decide (magnitude left.PublicKey < magnitude right.PublicKey)

/-- XOR distance of a peer to the target, as a number: the sort key of
`bootstrapPeers`.  It is defined when the two identifiers have the same width. -/
def distance (peerId target : ID) : Option Nat :=
  (peerId.Xor target).map fun d => magnitude d.PublicKey

/-! ## Sorting -/

/-- Insert `x` into a list ordered by `less`, in front of the first element that
is not less than `x`. -/
def insertSorted {α : Type} (less : α → α → Bool) (x : α) : List α → List α
  | [] => [x]
  | y :: ys => if less y x then y :: insertSorted less x ys else x :: y :: ys

/-- Library routine `sort.Slice` of Go, given the comparison of two elements.
Its contract is that the slice is rearranged (a permutation) into an order in
which no element is less than an earlier one; the order of equal elements is not
specified.  It is modelled by insertion sort, which the library uses for short
slices; the proofs below use only the two properties of the contract. -/
def sortSlice {α : Type} (less : α → α → Bool) : List α → List α
  | [] => []
  | x :: xs => insertSorted less x (sortSlice less xs)

/-! ## State of one lookup -/

/-- Local variables of `bootstrapPeers`, with two ghost fields recording the
interaction with the query tasks. -/
structure LookupState where
  /-- keys of the map `visited` -/
  visited : List String
  /-- slice `queue` -/
  queue : List ID
  /-- slice `results` -/
  results : List ID
  /-- counter `pending` -/
  pending : Int
  /-- ghost: contact peer of every `go queryPeer`, in launch order -/
  launched : List ID
  /-- ghost: number of values received from `responses` -/
  received : Nat
  deriving DecidableEq, Repr

/-- State at function entry: empty map, nil slices. -/
def LookupState.init : LookupState :=
  { visited := [], queue := [], results := [], pending := 0, launched := [], received := 0 }

/-- Seeding loop (lines 48-51): every peer returned by `FindClosestPeers` is
marked visited and appended to the queue. -/
def seedLoop : List ID → LookupState → LookupState
  | [], st => st
  | peerId :: rest, st =>
    seedLoop rest
      { st with
        visited := st.visited.insert peerId.PublicKeyHex
        queue := st.queue ++ [peerId] }

/-- Initial fan-out (lines 57-62), by recursion on the queue: while
`pending < alpha` and the queue is not empty, a query is launched for the head
of the queue, the head is appended to `results` and removed from the queue, and
`pending` is incremented. -/
def initialFanOut (alpha : Int) : List ID → LookupState → LookupState
  | [], st => { st with queue := [] }
  | q :: rest, st =>
    if st.pending < alpha then
      initialFanOut alpha rest
        { st with
          launched := st.launched ++ [q]
          results := st.results ++ [q]
          queue := rest
          pending := st.pending + 1 }
    else { st with queue := q :: rest }

/-- Expansion of one response (lines 74-84): every peer of the response whose
key is not yet visited is appended to `results` and to the queue and marked
visited. -/
def expand : List ID → LookupState → LookupState
  | [], st => st
  | peerId :: rest, st =>
    if peerId.PublicKeyHex ∈ st.visited then expand rest st
    else
      expand rest
        { st with
          results := st.results ++ [peerId]
          queue := st.queue ++ [peerId]
          visited := st.visited.insert peerId.PublicKeyHex }

/-- Refill (lines 87-90), by recursion on the queue: while `pending < alpha`
and the queue is not empty, a query is launched for the head of the queue, the
head is removed and `pending` is incremented. -/
def refill (alpha : Int) : List ID → LookupState → LookupState
  | [], st => { st with queue := [] }
  | q :: rest, st =>
    if st.pending < alpha then
      refill alpha rest
        { st with
          launched := st.launched ++ [q]
          queue := rest
          pending := st.pending + 1 }
    else { st with queue := q :: rest }

/-- Body of the expansion loop (lines 69-93) for the received value `peers`:
decrement `pending`, expand the response, refill, empty the queue. -/
def receive (alpha : Int) (peers : List ID) (st : LookupState) : LookupState :=
  let st1 := { st with pending := st.pending - 1, received := st.received + 1 }
  let st2 := expand peers st1
  let st3 := refill alpha st2.queue st2
  { st3 with queue := [] }

/-- State before the expansion loop (lines 42-65): seeding, initial fan-out,
then the queue is emptied. -/
def startLookup (alpha : Int) (seed : List ID) : LookupState :=
  let st0 := seedLoop seed LookupState.init
  let st1 := initialFanOut alpha st0.queue st0
  { st1 with queue := [] }

/-- Expansion loop (lines 68-94) over the values that arrive on `responses`: one
value is consumed per iteration, as long as `pending > 0`.  When the values run
out while `pending > 0` the loop is waiting on the channel, and the state
reached so far is returned. -/
def expansionLoop (alpha : Int) : List (List ID) → LookupState → LookupState
  | [], st => st
  | peers :: rest, st =>
    if st.pending > 0 then expansionLoop alpha rest (receive alpha peers st) else st

/-- Lookup state after the responses `resps` have arrived. -/
def lookup (alpha : Int) (seed : List ID) (resps : List (List ID)) : LookupState :=
  expansionLoop alpha resps (startLookup alpha seed)

/-- Comparison passed to `sort.Slice` (lines 98-100): `left` and `right` are
the XOR of the two peers with the target and the answer is `left.Less(right)`.
By the spec a failing `Xor` (mismatched widths) is a fatal programmer error that
correct usage never reaches; to keep the sort total the answer is `false` there.
No statement about the order of the output relies on that case: each of them
assumes that the widths agree. -/
def lessByDistance (target a b : ID) : Bool :=
  match a.Xor target, b.Xor target with
  | some left, some right => left.Less right
  | _, _ => false

/-- Sort of the results by XOR distance to the target (lines 97-101). -/
def sortByDistance (target : ID) (results : List ID) : List ID :=
  sortSlice (lessByDistance target) results

/-- Cut-off of the sorted results at the bucket size (lines 105-107). -/
def capResults (bucketSize : Nat) (results : List ID) : List ID :=
  if results.length > bucketSize then results.take bucketSize else results

/-- Function `bootstrapPeers`: the lookup driven by the responses `resps`, then
sort and cut-off.  The result is `none` while the expansion loop is still
waiting for a response (`pending > 0` with no value left in `resps`). -/
def bootstrapPeers (bucketSize : Nat) (target : ID) (alpha : Int) (seed : List ID)
    (resps : List (List ID)) : Option (List ID) :=
  let st := lookup alpha seed resps
  if st.pending > 0 then none
  else some (capResults bucketSize (sortByDistance target st.results))

/-! ## Concrete peers used in the examples -/

/-- Target of the example lookups. -/
def peerT : ID := { Address := "t:3000", PublicKey := [0] }

/-- Example peer at distance 1 from `peerT`. -/
def peerA : ID := { Address := "a:3000", PublicKey := [1] }

/-- Example peer at distance 2 from `peerT`. -/
def peerB : ID := { Address := "b:3000", PublicKey := [2] }

/-- Example peer at distance 3 from `peerT`. -/
def peerC : ID := { Address := "c:3000", PublicKey := [3] }

/-- Example peer at distance 4 from `peerT`. -/
def peerD : ID := { Address := "d:3000", PublicKey := [4] }

/-! ## Auxiliary functions for the statements -/

/-- Keys of the map `visited` after the peers `ps` have been marked visited. -/
def markVisited (visited : List String) (ps : List ID) : List String :=
  ps.foldl (fun v p => v.insert p.PublicKeyHex) visited

/-- New candidates of a response, in response order: the entries whose key is
not in `visited` and is not the key of an earlier entry of the response. -/
def newCandidates : List String → List ID → List ID
  | _, [] => []
  | visited, c :: cs =>
    if c.PublicKeyHex ∈ visited then newCandidates visited cs
    else c :: newCandidates (visited.insert c.PublicKeyHex) cs

/-- Distance of a peer to the target as a plain number, `0` where the distance is
not defined; used only for identifiers of the width of the target. -/
def distanceOr (target peerId : ID) : Nat :=
  (distance peerId target).getD 0

/-- Number of queries launched by a fan-out or a refill: the free slots
`alpha - pending`, limited by the length of the queue. -/
def launchCount (alpha pending : Int) (queue : List ID) : Nat :=
  min queue.length (alpha - pending).toNat

/-- Invariant of the lookup state between two iterations of the expansion
loop. -/
structure LoopInv (alpha : Int) (st : LookupState) : Prop where
  queue_nil : st.queue = []
  pending_eq : st.pending = (st.launched.length : Int) - (st.received : Int)
  pending_nonneg : 0 ≤ st.pending
  pending_le : st.pending ≤ max alpha 0
  launched_sublist : st.launched.Sublist st.results
  results_visited : ∀ p ∈ st.results, p.PublicKeyHex ∈ st.visited
  visited_nodup : st.visited.Nodup

/-- First `n` values delivered by a response oracle, `oracle i` being the
`i`-th value to arrive on the channel. -/
def answers (oracle : Nat → List ID) (n : Nat) : List (List ID) :=
  (List.range n).map oracle

/-- Bound on the number of queries of one lookup: the seed peers launched in the
initial fan-out plus the distinct keys of the universe `U`. -/
def queryBound (U : List ID) (alpha : Int) (seed : List ID) : Nat :=
  (startLookup alpha seed).launched.length + ((U.map ID.PublicKeyHex).dedup).length

/-- Accumulated results as the specification words them: starting from the seed
peers, whose keys are visited, every received response, in arrival order,
contributes each candidate whose key is not visited when it is folded in. -/
def accumulateSpec : List String → List ID → List (List ID) → List ID
  | _, acc, [] => acc
  | visited, acc, peers :: rest =>
    accumulateSpec (markVisited visited (newCandidates visited peers))
      (acc ++ newCandidates visited peers) rest

/-! ## The query primitive -/

/-- Messages of the `protobuf` package that matter to a lookup; `Other` stands
for a message of any other type. -/
inductive Message where
  | LookupNodeRequest (Target : ID)
  | LookupNodeResponse (Peers : List ID)
  | Other (name : String)
  deriving DecidableEq, Repr

/-- Request `rpc.Request`: the message set by `SetMessage` and the timeout set by
`SetTimeout`, in nanoseconds. -/
structure RpcRequest where
  Message : Message
  Timeout : Nat
  deriving DecidableEq, Repr

/-- Client returned by `Dial`, given by its method `Request`, which returns a
response or an error (a timeout is an error). -/
structure Client where
  Request : RpcRequest → Except String Message

/-- Network `network.Network`, given by its method `Dial`, which returns a client
or an error. -/
structure Network where
  Dial : String → Except String Client

/-- Observable actions of `queryPeer`: a call of `Dial`, a call of `Request`, and
a send on the channel `responses`. -/
inductive Event where
  | dial (address : String)
  | request (req : RpcRequest)
  | send (peers : List ID)
  deriving DecidableEq, Repr

/-- Function `queryPeer` (lines 14-39), as the sequence of its actions.  The
function has no return value; what the caller gets is what is sent on
`responses`. -/
def queryPeer (net : Network) (peerId targetId : ID) : List Event :=
  match net.Dial peerId.Address with
  | .error _ => [.dial peerId.Address, .send []]
  | .ok client =>
    let request : RpcRequest :=
      { Message := .LookupNodeRequest targetId, Timeout := 3 * 1000000000 }
    match client.Request request with
    | .error _ => [.dial peerId.Address, .request request, .send []]
    | .ok (.LookupNodeResponse peers) =>
      [.dial peerId.Address, .request request, .send peers]
    | .ok _ => [.dial peerId.Address, .request request, .send []]

/-- Values sent on the channel `responses` in a sequence of actions. -/
def sends : List Event → List (List ID)
  | [] => []
  | .send peers :: rest => peers :: sends rest
  | _ :: rest => sends rest

/-- Requests attempted in a sequence of actions. -/
def requests : List Event → List RpcRequest
  | [] => []
  | .request req :: rest => req :: requests rest
  | _ :: rest => requests rest

/-- Request built by `queryPeer` for a target (lines 21-25). -/
def lookupRequest (targetId : ID) : RpcRequest :=
  { Message := .LookupNodeRequest targetId, Timeout := 3 * 1000000000 }

/-- Network in which every dial fails. -/
def netDown : Network :=
  { Dial := fun _ => .error "dial: connection refused" }

/-- Network in which every dial succeeds and every request ends in the given
way. -/
def netWith (answer : Except String Message) : Network :=
  { Dial := fun _ => .ok { Request := fun _ => answer } }

/-! ## Lookups driven by a network and an arrival order -/

/-- Example peer at distance 5 from `peerT`. -/
def peerE : ID := { Address := "e:3000", PublicKey := [5] }

/-- Value delivered by the query task of a contact peer: the value that
`queryPeer` sends on the channel. -/
def delivered (net : Network) (peerId targetId : ID) : List ID :=
  match sends (queryPeer net peerId targetId) with
  | peers :: _ => peers
  | [] => []

/-- Expansion loop in which each received value is the one delivered by an
outstanding query.  `outstanding` lists the contact peers of the queries
launched and not yet answered, in launch order; `order` gives, for each
iteration, the position in `outstanding` of the query whose value arrives next.
The result is `none` when `order` is not an arrival order of the run: a position
that does not exist, too few or too many entries. -/
def scheduledLoop (alpha : Int) (reply : ID → List ID) :
    List Nat → List ID → LookupState → Option LookupState
  | [], _, st => if st.pending > 0 then none else some st
  | i :: rest, outstanding, st =>
    if st.pending > 0 then
      match outstanding.get? i with
      | none => none
      | some contact =>
        scheduledLoop alpha reply rest
          (outstanding.eraseIdx i ++
            (receive alpha (reply contact) st).launched.drop st.launched.length)
          (receive alpha (reply contact) st)
    else none

/-- Lookup over a network: every launched query is answered by `queryPeer`, and
the answers arrive in the given order. -/
def networkLookup (net : Network) (target : ID) (alpha : Int) (seed : List ID)
    (order : List Nat) : Option LookupState :=
  scheduledLoop alpha (fun contact => delivered net contact target) order
    (startLookup alpha seed).launched (startLookup alpha seed)

/-- Example network: `A` knows `C` and `D`, `D` knows `E`, `B` cannot be dialled,
every other peer answers with no candidate. -/
def exampleNet : Network :=
  { Dial := fun address =>
      if address = peerB.Address then .error "dial: connection refused"
      else .ok
        { Request := fun _ =>
            if address = peerA.Address then .ok (.LookupNodeResponse [peerC, peerD])
            else if address = peerD.Address then .ok (.LookupNodeResponse [peerE])
            else .ok (.LookupNodeResponse []) } }

/-! ## Sorting and cut-off -/

theorem insertSorted_perm {α : Type} (less : α → α → Bool) (x : α) :
    ∀ l : List α, (insertSorted less x l).Perm (x :: l)
  | [] => List.Perm.refl _
  | y :: ys => by
    unfold insertSorted
    split
    · exact ((insertSorted_perm less x ys).cons y).trans (List.Perm.swap x y ys)
    · exact List.Perm.refl _

theorem sortSlice_perm {α : Type} (less : α → α → Bool) :
    ∀ l : List α, (sortSlice less l).Perm l
  | [] => List.Perm.refl _
  | x :: xs => by
    unfold sortSlice
    exact (insertSorted_perm less x _).trans ((sortSlice_perm less xs).cons x)

theorem insertSorted_sorted {α : Type} (less : α → α → Bool) (k : α → Nat) (x : α) :
    ∀ l : List α, (∀ y ∈ l, (less y x = true ↔ k y < k x)) →
      l.Pairwise (fun a b => k a ≤ k b) →
      (insertSorted less x l).Pairwise (fun a b => k a ≤ k b)
  | [], _, _ => List.pairwise_singleton _ _
  | y :: ys, hless, h => by
    unfold insertSorted
    rw [List.pairwise_cons] at h
    have hy := hless y (List.mem_cons_self y ys)
    split
    · rename_i hyx
      have hlt : k y < k x := hy.1 hyx
      rw [List.pairwise_cons]
      refine ⟨?_, insertSorted_sorted less k x ys
        (fun z hz => hless z (List.mem_cons_of_mem y hz)) h.2⟩
      intro z hz
      rcases List.mem_cons.1 ((insertSorted_perm less x ys).subset hz) with rfl | hz
      · exact Nat.le_of_lt hlt
      · exact h.1 z hz
    · rename_i hyx
      have hle : k x ≤ k y := by
        by_contra hc
        exact hyx (hy.2 (Nat.lt_of_not_le hc))
      rw [List.pairwise_cons]
      refine ⟨?_, List.pairwise_cons.2 h⟩
      intro z hz
      rcases List.mem_cons.1 hz with rfl | hz
      · exact hle
      · exact Nat.le_trans hle (h.1 z hz)

theorem sortSlice_sorted {α : Type} (less : α → α → Bool) (k : α → Nat) :
    ∀ l : List α, (∀ a ∈ l, ∀ b ∈ l, (less a b = true ↔ k a < k b)) →
      (sortSlice less l).Pairwise (fun a b => k a ≤ k b)
  | [], _ => List.Pairwise.nil
  | x :: xs, hless => by
    unfold sortSlice
    refine insertSorted_sorted less k x _ ?_ (sortSlice_sorted less k xs
      (fun a ha b hb => hless a (List.mem_cons_of_mem x ha) b (List.mem_cons_of_mem x hb)))
    intro y hy
    exact hless y (List.mem_cons_of_mem x ((sortSlice_perm less xs).subset hy)) x
      (List.mem_cons_self x xs)

theorem distance_eq_distanceOr {target p : ID}
    (h : p.PublicKey.length = target.PublicKey.length) :
    distance p target = some (distanceOr target p) := by
  simp [distanceOr, distance, ID.Xor, h]

theorem distanceOr_eq_magnitude {target p : ID}
    (h : p.PublicKey.length = target.PublicKey.length) :
    distanceOr target p = magnitude (xorBytes p.PublicKey target.PublicKey) := by
  simp [distanceOr, distance, ID.Xor, h]

theorem lessByDistance_iff {target a b : ID}
    (ha : a.PublicKey.length = target.PublicKey.length)
    (hb : b.PublicKey.length = target.PublicKey.length) :
    lessByDistance target a b = true ↔ distanceOr target a < distanceOr target b := by
  simp [lessByDistance, distanceOr, distance, ID.Xor, ID.Less, ha, hb]

theorem sortByDistance_perm (target : ID) (results : List ID) :
    (sortByDistance target results).Perm results :=
  sortSlice_perm _ results

theorem sortByDistance_sorted (target : ID) (results : List ID)
    (hwidth : ∀ p ∈ results, p.PublicKey.length = target.PublicKey.length) :
    (sortByDistance target results).Pairwise
      (fun a b => distanceOr target a ≤ distanceOr target b) :=
  sortSlice_sorted _ (distanceOr target) results
    (fun a ha b hb => lessByDistance_iff (hwidth a ha) (hwidth b hb))

theorem capResults_eq_take (bucketSize : Nat) (results : List ID) :
    capResults bucketSize results = results.take bucketSize := by
  unfold capResults
  split
  · rfl
  · rw [List.take_of_length_le (by omega)]

theorem bootstrapPeers_eq_some {bucketSize : Nat} {target : ID} {alpha : Int} {seed : List ID}
    {resps : List (List ID)} {out : List ID}
    (h : bootstrapPeers bucketSize target alpha seed resps = some out) :
    (lookup alpha seed resps).pending ≤ 0 ∧
      out = (sortByDistance target (lookup alpha seed resps).results).take bucketSize := by
  unfold bootstrapPeers at h
  simp only at h
  split at h
  · cases h
  · rename_i hp
    refine ⟨by omega, ?_⟩
    rw [capResults_eq_take] at h
    exact (Option.some.inj h).symm

/-! ## Ranking and size of the output -/

/-- C1: for identifiers of the width of the target, the list returned by
`bootstrapPeers` is sorted ascending by XOR distance to the target: for all
positions `i < j` of the output, the distances of `output[i]` and `output[j]`
are defined and the second is not less than the first, the distance being the
bytewise XOR read as an unsigned big-endian number. -/
theorem bootstrapPeers_sorted (bucketSize : Nat) (target : ID) (alpha : Int) (seed : List ID)
    (resps : List (List ID)) (out : List ID)
    (hwidth : ∀ p ∈ (lookup alpha seed resps).results,
      p.PublicKey.length = target.PublicKey.length)
    (h : bootstrapPeers bucketSize target alpha seed resps = some out) :
    ∀ i j : Fin out.length, i < j →
      ∃ di dj : Nat, distance (out.get i) target = some di ∧
        distance (out.get j) target = some dj ∧ di ≤ dj := by
  obtain ⟨-, rfl⟩ := bootstrapPeers_eq_some h
  have hperm := sortByDistance_perm target (lookup alpha seed resps).results
  have hs := (sortByDistance_sorted target (lookup alpha seed resps).results hwidth).sublist
    (List.take_sublist bucketSize _)
  have hw : ∀ p ∈ (sortByDistance target (lookup alpha seed resps).results).take bucketSize,
      p.PublicKey.length = target.PublicKey.length :=
    fun p hp => hwidth p (hperm.subset (List.mem_of_mem_take hp))
  intro i j hij
  exact ⟨_, _, distance_eq_distanceOr (hw _ (List.get_mem _ _ _)),
    distance_eq_distanceOr (hw _ (List.get_mem _ _ _)), List.pairwise_iff_get.1 hs i j hij⟩

/-- Witness of C1: seed `[B, A]` with `alpha = 3`, `A` answers `[C]`, the other
two queries answer nothing; the output is `[A, B, C]`. -/
theorem bootstrapPeers_sorted_witness :
    ((∀ p ∈ (lookup 3 [peerB, peerA] [[], [peerC], []]).results,
          p.PublicKey.length = peerT.PublicKey.length) ∧
        bootstrapPeers 20 peerT 3 [peerB, peerA] [[], [peerC], []] =
          some [peerA, peerB, peerC]) ∧
      ∀ i j : Fin [peerA, peerB, peerC].length, i < j →
        ∃ di dj : Nat, distance ([peerA, peerB, peerC].get i) peerT = some di ∧
          distance ([peerA, peerB, peerC].get j) peerT = some dj ∧ di ≤ dj :=
  ⟨⟨by decide, by decide⟩,
    bootstrapPeers_sorted 20 peerT 3 [peerB, peerA] [[], [peerC], []] [peerA, peerB, peerC]
      (by decide) (by decide)⟩

/-- C2: for identifiers of the width of the target, when more than `bucketSize`
peers were accumulated, the output has exactly `bucketSize` entries, is a
sub-multiset of the accumulated results, and every accumulated peer left out
(the list `rest`) is at a distance not less than that of every peer in the
output, both distances being defined. -/
theorem bootstrapPeers_closest (bucketSize : Nat) (target : ID) (alpha : Int) (seed : List ID)
    (resps : List (List ID)) (out : List ID)
    (hwidth : ∀ p ∈ (lookup alpha seed resps).results,
      p.PublicKey.length = target.PublicKey.length)
    (h : bootstrapPeers bucketSize target alpha seed resps = some out)
    (hmore : bucketSize < (lookup alpha seed resps).results.length) :
    out.length = bucketSize ∧
      out.Subperm (lookup alpha seed resps).results ∧
      ∃ rest : List ID,
        (out ++ rest).Perm (lookup alpha seed resps).results ∧
        ∀ x ∈ out, ∀ y ∈ rest,
          ∃ dx dy : Nat, distance x target = some dx ∧ distance y target = some dy ∧
            dx ≤ dy := by
  obtain ⟨-, rfl⟩ := bootstrapPeers_eq_some h
  have hperm := sortByDistance_perm target (lookup alpha seed resps).results
  have hsorted := sortByDistance_sorted target (lookup alpha seed resps).results hwidth
  refine ⟨?_, ?_, (sortByDistance target (lookup alpha seed resps).results).drop bucketSize,
    ?_, ?_⟩
  · rw [List.length_take, hperm.length_eq]
    omega
  · exact (List.take_sublist _ _).subperm.trans hperm.subperm
  · rw [List.take_append_drop]
    exact hperm
  · intro x hx y hy
    rw [← List.take_append_drop bucketSize (sortByDistance target _)] at hsorted
    exact ⟨_, _,
      distance_eq_distanceOr (hwidth x (hperm.subset (List.mem_of_mem_take hx))),
      distance_eq_distanceOr (hwidth y (hperm.subset (List.mem_of_mem_drop hy))),
      (List.pairwise_append.1 hsorted).2.2 x hx y hy⟩

/-- Witness of C2: three accumulated peers and a bucket size of two. -/
theorem bootstrapPeers_closest_witness :
    ((∀ p ∈ (lookup 3 [peerC, peerA, peerB] [[], [], []]).results,
          p.PublicKey.length = peerT.PublicKey.length) ∧
        bootstrapPeers 2 peerT 3 [peerC, peerA, peerB] [[], [], []] = some [peerA, peerB] ∧
        2 < (lookup 3 [peerC, peerA, peerB] [[], [], []]).results.length) ∧
      ([peerA, peerB].length = 2 ∧
        [peerA, peerB].Subperm (lookup 3 [peerC, peerA, peerB] [[], [], []]).results ∧
        ∃ rest : List ID,
          ([peerA, peerB] ++ rest).Perm (lookup 3 [peerC, peerA, peerB] [[], [], []]).results ∧
          ∀ x ∈ [peerA, peerB], ∀ y ∈ rest,
            ∃ dx dy : Nat, distance x peerT = some dx ∧ distance y peerT = some dy ∧
              dx ≤ dy) :=
  ⟨⟨by decide, by decide, by decide⟩,
    bootstrapPeers_closest 2 peerT 3 [peerC, peerA, peerB] [[], [], []] [peerA, peerB]
      (by decide) (by decide) (by decide)⟩

/-- C3: the length of the list returned by `bootstrapPeers` is the minimum of
the number of accumulated peers and `bucketSize`; in particular it is at most
`bucketSize`. -/
theorem bootstrapPeers_length (bucketSize : Nat) (target : ID) (alpha : Int) (seed : List ID)
    (resps : List (List ID)) (out : List ID)
    (h : bootstrapPeers bucketSize target alpha seed resps = some out) :
    out.length = min (lookup alpha seed resps).results.length bucketSize ∧
      out.length ≤ bucketSize := by
  obtain ⟨-, rfl⟩ := bootstrapPeers_eq_some h
  rw [List.length_take, (sortByDistance_perm target _).length_eq]
  constructor
  · exact Nat.min_comm _ _
  · exact Nat.min_le_left _ _

/-- Witness of C3: two accumulated peers and a bucket size of one. -/
theorem bootstrapPeers_length_witness :
    bootstrapPeers 1 peerT 2 [peerB, peerA] [[], []] = some [peerA] ∧
      ([peerA].length = min (lookup 2 [peerB, peerA] [[], []]).results.length 1 ∧
        [peerA].length ≤ 1) :=
  ⟨by decide, bootstrapPeers_length 1 peerT 2 [peerB, peerA] [[], []] [peerA] (by decide)⟩

/-! ## Closed forms of the loops -/

theorem seedLoop_eq : ∀ (seed : List ID) (st : LookupState),
    seedLoop seed st =
      { st with visited := markVisited st.visited seed, queue := st.queue ++ seed }
  | [], st => by simp [seedLoop, markVisited]
  | p :: rest, st => by
    rw [seedLoop, seedLoop_eq rest]
    simp [markVisited]

theorem initialFanOut_eq (alpha : Int) : ∀ (queue : List ID) (st : LookupState),
    initialFanOut alpha queue st =
      { st with
        launched := st.launched ++ queue.take (launchCount alpha st.pending queue)
        results := st.results ++ queue.take (launchCount alpha st.pending queue)
        queue := queue.drop (launchCount alpha st.pending queue)
        pending := st.pending + launchCount alpha st.pending queue }
  | [], st => by simp [initialFanOut, launchCount]
  | q :: rest, st => by
    unfold initialFanOut
    split
    · rename_i hlt
      rw [initialFanOut_eq alpha rest]
      have hk : launchCount alpha st.pending (q :: rest) =
          launchCount alpha (st.pending + 1) rest + 1 := by
        simp only [launchCount, List.length_cons]
        omega
      simp only [hk, List.take_succ_cons, List.drop_succ_cons, List.append_assoc,
        List.singleton_append, Nat.cast_add, Nat.cast_one]
      congr 1
      omega
    · rename_i hlt
      have hk : launchCount alpha st.pending (q :: rest) = 0 := by
        simp only [launchCount, List.length_cons]
        omega
      simp [hk]

theorem refill_eq (alpha : Int) : ∀ (queue : List ID) (st : LookupState),
    refill alpha queue st =
      { st with
        launched := st.launched ++ queue.take (launchCount alpha st.pending queue)
        queue := queue.drop (launchCount alpha st.pending queue)
        pending := st.pending + launchCount alpha st.pending queue }
  | [], st => by simp [refill, launchCount]
  | q :: rest, st => by
    unfold refill
    split
    · rename_i hlt
      rw [refill_eq alpha rest]
      have hk : launchCount alpha st.pending (q :: rest) =
          launchCount alpha (st.pending + 1) rest + 1 := by
        simp only [launchCount, List.length_cons]
        omega
      simp only [hk, List.take_succ_cons, List.drop_succ_cons, List.append_assoc,
        List.singleton_append, Nat.cast_add, Nat.cast_one]
      congr 1
      omega
    · rename_i hlt
      have hk : launchCount alpha st.pending (q :: rest) = 0 := by
        simp only [launchCount, List.length_cons]
        omega
      simp [hk]

theorem expand_eq : ∀ (peers : List ID) (st : LookupState),
    expand peers st =
      { st with
        results := st.results ++ newCandidates st.visited peers
        queue := st.queue ++ newCandidates st.visited peers
        visited := markVisited st.visited (newCandidates st.visited peers) }
  | [], st => by simp [expand, newCandidates, markVisited]
  | p :: rest, st => by
    unfold expand newCandidates
    split
    · exact expand_eq rest st
    · rw [expand_eq rest]
      simp [markVisited]

theorem startLookup_eq (alpha : Int) (seed : List ID) :
    startLookup alpha seed =
      { visited := markVisited [] seed
        queue := []
        results := seed.take (launchCount alpha 0 seed)
        pending := launchCount alpha 0 seed
        launched := seed.take (launchCount alpha 0 seed)
        received := 0 } := by
  simp [startLookup, seedLoop_eq, initialFanOut_eq, LookupState.init]

theorem receive_eq (alpha : Int) (peers : List ID) (st : LookupState) :
    receive alpha peers st =
      { visited := markVisited st.visited (newCandidates st.visited peers)
        queue := []
        results := st.results ++ newCandidates st.visited peers
        pending := st.pending - 1 +
          launchCount alpha (st.pending - 1) (st.queue ++ newCandidates st.visited peers)
        launched := st.launched ++
          (st.queue ++ newCandidates st.visited peers).take
            (launchCount alpha (st.pending - 1) (st.queue ++ newCandidates st.visited peers))
        received := st.received + 1 } := by
  simp [receive, expand_eq, refill_eq]

/-! ## The visited keys and the new candidates -/

theorem mem_markVisited (k : String) : ∀ (ps : List ID) (visited : List String),
    k ∈ markVisited visited ps ↔ k ∈ visited ∨ k ∈ ps.map ID.PublicKeyHex
  | [], visited => by simp [markVisited]
  | p :: rest, visited => by
    have ih := mem_markVisited k rest (visited.insert p.PublicKeyHex)
    simp only [markVisited, List.foldl_cons] at ih ⊢
    rw [ih, List.mem_insert_iff, List.map_cons, List.mem_cons]
    tauto

theorem markVisited_nodup : ∀ (ps : List ID) (visited : List String),
    visited.Nodup → (markVisited visited ps).Nodup
  | [], _, h => h
  | p :: rest, visited, h => by
    simp only [markVisited, List.foldl_cons]
    exact markVisited_nodup rest _ (h.insert)

theorem markVisited_append (visited : List String) (ps qs : List ID) :
    markVisited visited (ps ++ qs) = markVisited (markVisited visited ps) qs := by
  simp [markVisited]

theorem newCandidates_sublist : ∀ (ps : List ID) (visited : List String),
    (newCandidates visited ps).Sublist ps
  | [], _ => by simp [newCandidates]
  | p :: rest, visited => by
    unfold newCandidates
    split
    · exact (newCandidates_sublist rest visited).cons p
    · exact (newCandidates_sublist rest _).cons₂ p

theorem newCandidates_not_visited : ∀ (ps : List ID) (visited : List String),
    ∀ p ∈ newCandidates visited ps, p.PublicKeyHex ∉ visited
  | [], _ => by simp [newCandidates]
  | q :: rest, visited => by
    unfold newCandidates
    split
    · exact newCandidates_not_visited rest visited
    · rename_i hq
      intro p hp
      rcases List.mem_cons.1 hp with rfl | hp
      · exact hq
      · intro hv
        exact newCandidates_not_visited rest _ p hp (List.mem_insert_iff.2 (Or.inr hv))

theorem newCandidates_nodup : ∀ (ps : List ID) (visited : List String),
    ((newCandidates visited ps).map ID.PublicKeyHex).Nodup
  | [], _ => by simp [newCandidates]
  | q :: rest, visited => by
    unfold newCandidates
    split
    · exact newCandidates_nodup rest visited
    · rw [List.map_cons, List.nodup_cons]
      refine ⟨?_, newCandidates_nodup rest _⟩
      intro hmem
      obtain ⟨p, hp, hpk⟩ := List.mem_map.1 hmem
      exact newCandidates_not_visited rest _ p hp (List.mem_insert_iff.2 (Or.inl hpk))

theorem newCandidates_congr : ∀ (ps : List ID) (v w : List String),
    (∀ k, k ∈ v ↔ k ∈ w) → newCandidates v ps = newCandidates w ps
  | [], _, _, _ => by simp [newCandidates]
  | q :: rest, v, w, h => by
    unfold newCandidates
    have hq : q.PublicKeyHex ∈ v ↔ q.PublicKeyHex ∈ w := h _
    by_cases hv : q.PublicKeyHex ∈ v
    · rw [if_pos hv, if_pos (hq.1 hv)]
      exact newCandidates_congr rest v w h
    · rw [if_neg hv, if_neg (fun hw => hv (hq.2 hw))]
      congr 1
      apply newCandidates_congr rest
      intro k
      simp only [List.mem_insert_iff, h k]

theorem newCandidates_cons_of_mem {p : ID} {visited : List String} (rest : List ID)
    (h : p.PublicKeyHex ∈ visited) :
    newCandidates visited (p :: rest) = newCandidates visited rest := by
  rw [newCandidates, if_pos h]

theorem newCandidates_cons_of_not_mem {p : ID} {visited : List String} (rest : List ID)
    (h : p.PublicKeyHex ∉ visited) :
    newCandidates visited (p :: rest) =
      p :: newCandidates (visited.insert p.PublicKeyHex) rest := by
  rw [newCandidates, if_neg h]

theorem newCandidates_append : ∀ (ps qs : List ID) (visited : List String),
    newCandidates visited (ps ++ qs) =
      newCandidates visited ps ++
        newCandidates (markVisited visited (newCandidates visited ps)) qs
  | [], qs, visited => by simp [newCandidates, markVisited]
  | p :: rest, qs, visited => by
    rw [List.cons_append]
    by_cases h : p.PublicKeyHex ∈ visited
    · rw [newCandidates_cons_of_mem _ h, newCandidates_cons_of_mem _ h]
      exact newCandidates_append rest qs visited
    · rw [newCandidates_cons_of_not_mem _ h, newCandidates_cons_of_not_mem _ h,
        newCandidates_append rest qs]
      simp [markVisited]

theorem mem_markVisited_new (k : String) (ps : List ID) (visited : List String) :
    k ∈ markVisited visited (newCandidates visited ps) ↔
      k ∈ visited ∨ k ∈ ps.map ID.PublicKeyHex := by
  induction ps generalizing visited with
  | nil => simp [newCandidates, markVisited]
  | cons p rest ih =>
    unfold newCandidates
    split
    · rename_i hp
      rw [ih, List.map_cons, List.mem_cons]
      constructor
      · tauto
      · rintro (h | rfl | h)
        · exact Or.inl h
        · exact Or.inl hp
        · exact Or.inr h
    · have h := ih (visited.insert p.PublicKeyHex)
      simp only [markVisited, List.foldl_cons] at h ⊢
      rw [h, List.mem_insert_iff, List.map_cons, List.mem_cons]
      tauto

/-! ## Invariants of the expansion loop -/

theorem launchCount_le_length (alpha pending : Int) (queue : List ID) :
    launchCount alpha pending queue ≤ queue.length :=
  Nat.min_le_left _ _

theorem expansionLoop_induction (alpha : Int) (P : LookupState → Prop)
    (hstep : ∀ peers st, P st → 0 < st.pending → P (receive alpha peers st)) :
    ∀ (resps : List (List ID)) (st : LookupState), P st → P (expansionLoop alpha resps st)
  | [], _, h => h
  | peers :: rest, st, h => by
    unfold expansionLoop
    split
    · rename_i hp
      exact expansionLoop_induction alpha P hstep rest _ (hstep peers st h hp)
    · exact h

theorem loopInv_start (alpha : Int) (seed : List ID) : LoopInv alpha (startLookup alpha seed) := by
  rw [startLookup_eq]
  have hk := launchCount_le_length alpha 0 seed
  refine ⟨rfl, ?_, ?_, ?_, List.Sublist.refl _, ?_, ?_⟩
  · simp only [List.length_take]
    omega
  · simp only
    omega
  · simp only [launchCount]
    omega
  · intro p hp
    simp only at hp ⊢
    rw [mem_markVisited]
    exact Or.inr (List.mem_map_of_mem _ (List.mem_of_mem_take hp))
  · exact markVisited_nodup _ _ List.nodup_nil

theorem loopInv_receive (alpha : Int) (peers : List ID) (st : LookupState)
    (h : LoopInv alpha st) (hp : 0 < st.pending) : LoopInv alpha (receive alpha peers st) := by
  rw [receive_eq, h.queue_nil, List.nil_append]
  have hk := launchCount_le_length alpha (st.pending - 1) (newCandidates st.visited peers)
  have hpe := h.pending_eq
  have hle := h.pending_le
  refine ⟨rfl, ?_, ?_, ?_, ?_, ?_, ?_⟩
  · simp only [List.length_append, List.length_take]
    push_cast
    omega
  · simp only
    omega
  · simp only [launchCount]
    omega
  · exact h.launched_sublist.append (List.take_sublist _ _)
  · intro p hmem
    simp only at hmem ⊢
    rw [mem_markVisited]
    rcases List.mem_append.1 hmem with hm | hm
    · exact Or.inl (h.results_visited p hm)
    · exact Or.inr (List.mem_map_of_mem _ hm)
  · exact markVisited_nodup _ _ h.visited_nodup

theorem loopInv_lookup (alpha : Int) (seed : List ID) (resps : List (List ID)) :
    LoopInv alpha (lookup alpha seed resps) :=
  expansionLoop_induction alpha (LoopInv alpha)
    (fun peers st h hp => loopInv_receive alpha peers st h hp) resps _ (loopInv_start alpha seed)

theorem results_nodup_receive (alpha : Int) (peers : List ID) (st : LookupState)
    (h : LoopInv alpha st) (hnd : (st.results.map ID.PublicKeyHex).Nodup) :
    ((receive alpha peers st).results.map ID.PublicKeyHex).Nodup := by
  rw [receive_eq]
  simp only [List.map_append]
  refine List.Nodup.append hnd (newCandidates_nodup peers st.visited) ?_
  intro k hk hk2
  obtain ⟨p, hp, rfl⟩ := List.mem_map.1 hk
  obtain ⟨q, hq, hqk⟩ := List.mem_map.1 hk2
  exact newCandidates_not_visited peers st.visited q hq (hqk ▸ h.results_visited p hp)

theorem results_nodup_lookup (alpha : Int) (seed : List ID) (resps : List (List ID))
    (hseed : (seed.map ID.PublicKeyHex).Nodup) :
    ((lookup alpha seed resps).results.map ID.PublicKeyHex).Nodup := by
  have key := expansionLoop_induction alpha
    (fun st => LoopInv alpha st ∧ (st.results.map ID.PublicKeyHex).Nodup)
    (fun peers st h hp =>
      ⟨loopInv_receive alpha peers st h.1 hp, results_nodup_receive alpha peers st h.1 h.2⟩)
    resps (startLookup alpha seed)
    ⟨loopInv_start alpha seed, by
      rw [startLookup_eq]
      exact hseed.sublist ((List.take_sublist _ _).map _)⟩
  exact key.2

/-! ## Deduplication -/

/-- Remark: the distinctness of the seed keys is a property of the routing table,
which holds every key once; `bootstrapPeers` does not check it.  On a list with
a repeated peer both entries would be launched and appended to `results`. -/
theorem bootstrapPeers_duplicate_seed :
    bootstrapPeers 20 peerT 2 [peerA, peerA] [[], []] = some [peerA, peerA] ∧
      ¬ ([peerA, peerA].map ID.PublicKeyHex).Nodup := by
  decide

/-- C4: for every seed list returned by `FindClosestPeers`, whose entries have
pairwise distinct keys since the routing table holds every key once (`hseed`),
and every sequence of responses, no two entries of the list returned by
`bootstrapPeers` have the same deduplication key (`PublicKeyHex`). -/
theorem bootstrapPeers_nodup (bucketSize : Nat) (target : ID) (alpha : Int) (seed : List ID)
    (resps : List (List ID)) (out : List ID)
    (hseed : (seed.map ID.PublicKeyHex).Nodup)
    (h : bootstrapPeers bucketSize target alpha seed resps = some out) :
    (out.map ID.PublicKeyHex).Nodup := by
  obtain ⟨-, rfl⟩ := bootstrapPeers_eq_some h
  have hnd := results_nodup_lookup alpha seed resps hseed
  have hperm := (sortByDistance_perm target (lookup alpha seed resps).results).map
    ID.PublicKeyHex
  exact (hperm.nodup_iff.2 hnd).sublist ((List.take_sublist _ _).map _)

/-- Witness of C4: seed `[A, B]`, `A` answers `[B, C, C, A]`, the
queries of `B` and `C` answer `[C]` and `[A]`. -/
theorem bootstrapPeers_nodup_witness :
    ([peerA, peerB].map ID.PublicKeyHex).Nodup ∧
      bootstrapPeers 20 peerT 3 [peerA, peerB]
        [[peerB, peerC, peerC, peerA], [peerC], [peerA]] = some [peerA, peerB, peerC] ∧
      ([peerA, peerB, peerC].map ID.PublicKeyHex).Nodup :=
  ⟨by decide, by decide,
    bootstrapPeers_nodup 20 peerT 3 [peerA, peerB]
      [[peerB, peerC, peerC, peerA], [peerC], [peerA]] [peerA, peerB, peerC]
      (by decide) (by decide)⟩

/-! ## Results as a function of the received responses -/

theorem expansionLoop_closed (alpha : Int) : ∀ (resps : List (List ID)) (st : LookupState),
    st.received ≤ (expansionLoop alpha resps st).received ∧
      (expansionLoop alpha resps st).received ≤ st.received + resps.length ∧
      (expansionLoop alpha resps st).results =
        st.results ++ newCandidates st.visited
          ((resps.take ((expansionLoop alpha resps st).received - st.received)).flatten) ∧
      (expansionLoop alpha resps st).visited =
        markVisited st.visited (newCandidates st.visited
          ((resps.take ((expansionLoop alpha resps st).received - st.received)).flatten))
  | [], st => by simp [expansionLoop, newCandidates, markVisited]
  | peers :: rest, st => by
    unfold expansionLoop
    split
    · obtain ⟨h1, h2, h3, h4⟩ := expansionLoop_closed alpha rest (receive alpha peers st)
      have hr : (receive alpha peers st).received = st.received + 1 := by rw [receive_eq]
      have hres : (receive alpha peers st).results =
          st.results ++ newCandidates st.visited peers := by rw [receive_eq]
      have hvis : (receive alpha peers st).visited =
          markVisited st.visited (newCandidates st.visited peers) := by rw [receive_eq]
      rw [hr] at h1 h2
      have hsub : (expansionLoop alpha rest (receive alpha peers st)).received - st.received =
          ((expansionLoop alpha rest (receive alpha peers st)).received -
            (receive alpha peers st).received) + 1 := by
        rw [hr]
        omega
      refine ⟨by omega, by simp only [List.length_cons]; omega, ?_, ?_⟩
      · rw [hsub, List.take_succ_cons, List.flatten_cons, newCandidates_append, h3, hres, hvis,
          List.append_assoc]
      · rw [hsub, List.take_succ_cons, List.flatten_cons, newCandidates_append, h4, hvis,
          markVisited_append]
    · simp [newCandidates, markVisited]

theorem lookup_results (alpha : Int) (seed : List ID) (resps : List (List ID)) :
    (lookup alpha seed resps).results =
      seed.take (launchCount alpha 0 seed) ++
        newCandidates (markVisited [] seed)
          ((resps.take (lookup alpha seed resps).received).flatten) := by
  have h := (expansionLoop_closed alpha resps (startLookup alpha seed)).2.2.1
  have e : (startLookup alpha seed).received = 0 := by rw [startLookup_eq]
  have e2 : (startLookup alpha seed).results = seed.take (launchCount alpha 0 seed) := by
    rw [startLookup_eq]
  have e3 : (startLookup alpha seed).visited = markVisited [] seed := by
    rw [startLookup_eq]
  rw [e, e2, e3, Nat.sub_zero] at h
  exact h

theorem expansionLoop_waiting (alpha : Int) : ∀ (resps : List (List ID)) (st : LookupState),
    0 < (expansionLoop alpha resps st).pending →
      (expansionLoop alpha resps st).received = st.received + resps.length
  | [], st, _ => by simp [expansionLoop]
  | peers :: rest, st, h => by
    unfold expansionLoop at h ⊢
    split
    · rename_i hp
      rw [if_pos hp] at h
      rw [expansionLoop_waiting alpha rest _ h, receive_eq]
      simp only [List.length_cons]
      omega
    · rename_i hp
      rw [if_neg hp] at h
      exact absurd h hp

theorem expansionLoop_append (alpha : Int) : ∀ (xs ys : List (List ID)) (st : LookupState),
    expansionLoop alpha (xs ++ ys) st = expansionLoop alpha ys (expansionLoop alpha xs st)
  | [], ys, st => by simp [expansionLoop]
  | peers :: rest, ys, st => by
    rw [List.cons_append]
    by_cases hp : st.pending > 0
    · rw [expansionLoop, if_pos hp, expansionLoop, if_pos hp]
      exact expansionLoop_append alpha rest ys _
    · rw [expansionLoop, if_neg hp, expansionLoop, if_neg hp]
      cases ys with
      | nil => rfl
      | cons y ys => rw [expansionLoop, if_neg hp]

theorem expansionLoop_done (alpha : Int) (resps : List (List ID)) (st : LookupState)
    (h : st.pending ≤ 0) : expansionLoop alpha resps st = st := by
  cases resps with
  | nil => rfl
  | cons y ys => rw [expansionLoop, if_neg (by omega)]

/-! ## Termination -/

theorem launched_le_queryBound (U : List ID) (alpha : Int) (seed : List ID)
    (resps : List (List ID)) (hU : ∀ peers ∈ resps, ∀ p ∈ peers, p ∈ U) :
    (lookup alpha seed resps).launched.length ≤ queryBound U alpha seed := by
  have hsub := (loopInv_lookup alpha seed resps).launched_sublist.length_le
  rw [lookup_results, List.length_append] at hsub
  have hstart : (startLookup alpha seed).launched.length =
      (seed.take (launchCount alpha 0 seed)).length := by rw [startLookup_eq]
  have hdisc : (newCandidates (markVisited [] seed)
      ((resps.take (lookup alpha seed resps).received).flatten)).length ≤
      ((U.map ID.PublicKeyHex).dedup).length := by
    rw [← List.length_map _ ID.PublicKeyHex]
    apply List.Subperm.length_le
    apply List.subperm_of_subset (newCandidates_nodup _ _)
    intro k hk
    obtain ⟨p, hp, rfl⟩ := List.mem_map.1 hk
    have hp2 := (newCandidates_sublist _ _).subset hp
    obtain ⟨l, hl, hpl⟩ := List.mem_flatten.1 hp2
    exact List.mem_dedup.2 (List.mem_map_of_mem _ (hU l (List.mem_of_mem_take hl) p hpl))
  unfold queryBound
  omega

theorem mem_answers (U : List ID) (oracle : Nat → List ID)
    (hU : ∀ n, ∀ p ∈ oracle n, p ∈ U) (n : Nat) :
    ∀ peers ∈ answers oracle n, ∀ p ∈ peers, p ∈ U := by
  intro peers hpeers p hp
  obtain ⟨i, -, rfl⟩ := List.mem_map.1 hpeers
  exact hU i p hp

theorem answers_split (oracle : Nat → List ID) {n m : Nat} (h : n ≤ m) :
    answers oracle m = answers oracle n ++ (answers oracle m).drop n := by
  have : answers oracle n = (answers oracle m).take n := by
    simp only [answers, ← List.map_take, List.take_range, Nat.min_eq_left h]
  rw [this, List.take_append_drop]

/-- C5: for a finite universe `U` of identifiers and a response oracle whose
responses are lists of identifiers of `U`, the expansion loop terminates: at
every point the number of iterations is at most the number of queries launched,
which is at most the number of seeds launched in the initial fan-out plus the
number of distinct keys of `U`; and within that many responses the loop has
exited (`pending = 0`), `bootstrapPeers` returns, and later values are not
consumed. -/
theorem expansion_terminates (U : List ID) (bucketSize : Nat) (target : ID) (alpha : Int)
    (seed : List ID) (oracle : Nat → List ID) (hU : ∀ n, ∀ p ∈ oracle n, p ∈ U) :
    (∀ n, (lookup alpha seed (answers oracle n)).received ≤
          (lookup alpha seed (answers oracle n)).launched.length ∧
        (lookup alpha seed (answers oracle n)).launched.length ≤ queryBound U alpha seed) ∧
      ∃ n, n ≤ queryBound U alpha seed ∧
        (lookup alpha seed (answers oracle n)).pending = 0 ∧
        (bootstrapPeers bucketSize target alpha seed (answers oracle n)).isSome = true ∧
        ∀ m, n ≤ m →
          lookup alpha seed (answers oracle m) = lookup alpha seed (answers oracle n) := by
  have hbound : ∀ n, (lookup alpha seed (answers oracle n)).launched.length ≤
      queryBound U alpha seed :=
    fun n => launched_le_queryBound U alpha seed _ (mem_answers U oracle hU n)
  constructor
  · intro n
    have hinv := loopInv_lookup alpha seed (answers oracle n)
    have h1 := hinv.pending_eq
    have h2 := hinv.pending_nonneg
    exact ⟨by omega, hbound n⟩
  · have hzero : (lookup alpha seed (answers oracle (queryBound U alpha seed))).pending = 0 := by
      have hinv := loopInv_lookup alpha seed (answers oracle (queryBound U alpha seed))
      have h1 := hinv.pending_eq
      have h2 := hinv.pending_nonneg
      by_contra hne
      have hpos : 0 < (lookup alpha seed (answers oracle (queryBound U alpha seed))).pending := by
        omega
      have hrec := expansionLoop_waiting alpha _ _ hpos
      have hb := hbound (queryBound U alpha seed)
      have h0 : (startLookup alpha seed).received = 0 := by rw [startLookup_eq]
      have hlen : (answers oracle (queryBound U alpha seed)).length = queryBound U alpha seed := by
        simp [answers]
      rw [h0, hlen] at hrec
      unfold lookup at h1 hb hpos
      omega
    refine ⟨queryBound U alpha seed, Nat.le_refl _, hzero, ?_, ?_⟩
    · unfold bootstrapPeers
      simp [hzero]
    · intro m hm
      rw [answers_split oracle hm]
      unfold lookup at hzero ⊢
      rw [expansionLoop_append, expansionLoop_done alpha _ _ (by omega)]

/-- Witness of C5: the cyclic universe `{A, B, C}` in which every response lists
all three peers. -/
theorem expansion_terminates_witness :
    (∀ n : Nat, ∀ p ∈ (fun _ : Nat => [peerA, peerB, peerC]) n, p ∈ [peerA, peerB, peerC]) ∧
    (∀ n, (lookup 3 [peerA] (answers (fun _ => [peerA, peerB, peerC]) n)).received ≤
          (lookup 3 [peerA] (answers (fun _ => [peerA, peerB, peerC]) n)).launched.length ∧
        (lookup 3 [peerA] (answers (fun _ => [peerA, peerB, peerC]) n)).launched.length ≤
          queryBound [peerA, peerB, peerC] 3 [peerA]) ∧
      ∃ n, n ≤ queryBound [peerA, peerB, peerC] 3 [peerA] ∧
        (lookup 3 [peerA] (answers (fun _ => [peerA, peerB, peerC]) n)).pending = 0 ∧
        (bootstrapPeers 20 peerT 3 [peerA]
          (answers (fun _ => [peerA, peerB, peerC]) n)).isSome = true ∧
        ∀ m, n ≤ m →
          lookup 3 [peerA] (answers (fun _ => [peerA, peerB, peerC]) m) =
            lookup 3 [peerA] (answers (fun _ => [peerA, peerB, peerC]) n) :=
  ⟨fun _ _ hp => hp,
    expansion_terminates [peerA, peerB, peerC] 20 peerT 3 [peerA]
      (fun _ => [peerA, peerB, peerC]) (fun _ _ hp => hp)⟩

/-! ## Concurrency bound -/

/-- C6: for `alpha ≥ 1` the number of outstanding queries stays between `0` and
`alpha`: after the initial fan-out, and after every step of the expansion loop
(the state reached after any sequence `resps` of received values). -/
theorem pending_bounds (alpha : Int) (seed : List ID) (resps : List (List ID))
    (h : 1 ≤ alpha) :
    (0 ≤ (startLookup alpha seed).pending ∧ (startLookup alpha seed).pending ≤ alpha) ∧
      (0 ≤ (lookup alpha seed resps).pending ∧ (lookup alpha seed resps).pending ≤ alpha) := by
  have h0 := loopInv_start alpha seed
  have h1 := loopInv_lookup alpha seed resps
  have a0 := h0.pending_le
  have a1 := h1.pending_le
  have b0 := h0.pending_nonneg
  have b1 := h1.pending_nonneg
  omega

/-- Witness of C6: `alpha = 2`, three seeds, and a response with three new
candidates. -/
theorem pending_bounds_witness :
    (1 : Int) ≤ 2 ∧
      ((0 ≤ (startLookup 2 [peerA, peerB, peerC]).pending ∧
          (startLookup 2 [peerA, peerB, peerC]).pending ≤ 2) ∧
        (0 ≤ (lookup 2 [peerA, peerB, peerC] [[peerD, peerT, peerA]]).pending ∧
          (lookup 2 [peerA, peerB, peerC] [[peerD, peerT, peerA]]).pending ≤ 2)) :=
  ⟨by decide, pending_bounds 2 [peerA, peerB, peerC] [[peerD, peerT, peerA]] (by decide)⟩

/-! ## One query per key -/

/-- Remark: the distinctness of the seed keys is used; on the list `[B, B]`, which
the routing table does not produce, two queries would be launched with the
contact peer `B`. -/
theorem launched_duplicate_seed :
    (lookup 3 [peerB, peerB] [[peerC], [], []]).launched = [peerB, peerB, peerC] ∧
      ¬ ((lookup 3 [peerB, peerB] [[peerC], [], []]).launched.map ID.PublicKeyHex).Nodup := by
  decide

/-- C7: for every seed list returned by `FindClosestPeers`, whose entries have
pairwise distinct keys since the routing table holds every key once (`hseed`),
no key is the contact peer of two launched queries, whatever the responses
(self-references and candidates listed by several responders included). -/
theorem launched_nodup (alpha : Int) (seed : List ID) (resps : List (List ID))
    (hseed : (seed.map ID.PublicKeyHex).Nodup) :
    ((lookup alpha seed resps).launched.map ID.PublicKeyHex).Nodup :=
  (results_nodup_lookup alpha seed resps hseed).sublist
    ((loopInv_lookup alpha seed resps).launched_sublist.map _)

/-- Witness of C7: `A` lists itself and `C`, `B` lists `C` as well. -/
theorem launched_nodup_witness :
    ([peerA, peerB].map ID.PublicKeyHex).Nodup ∧
      ((lookup 3 [peerA, peerB] [[peerA, peerC], [peerC, peerB], []]).launched.map
        ID.PublicKeyHex).Nodup :=
  ⟨by decide,
    launched_nodup 3 [peerA, peerB] [[peerA, peerC], [peerC, peerB], []] (by decide)⟩

/-! ## Seed peers in the results -/

theorem take_launchCount (alpha : Int) (seed : List ID) :
    seed.take (launchCount alpha 0 seed) = seed.take alpha.toNat := by
  unfold launchCount
  rw [Int.sub_zero]
  rcases Nat.le_total seed.length alpha.toNat with hle | hle
  · rw [Nat.min_eq_left hle, List.take_of_length_le hle, List.take_of_length_le (Nat.le_refl _)]
  · rw [Nat.min_eq_right hle]

/-- Counterexample to C8 as stated: with `alpha = 1` and the seed list
`[A, B, C]` (`alpha + 2` peers) only `A` is launched and appended to `results`;
the lookup ends with `B` and `C` absent from the accumulated results. -/
theorem unlaunched_seed_not_in_results :
    peerB ∈ [peerA, peerB, peerC] ∧
      (lookup 1 [peerA, peerB, peerC] [[]]).pending = 0 ∧
      (lookup 1 [peerA, peerB, peerC] [[]]).results = [peerA] ∧
      peerB ∉ (lookup 1 [peerA, peerB, peerC] [[]]).results ∧
      bootstrapPeers 20 peerT 1 [peerA, peerB, peerC] [[]] = some [peerA] := by
  decide

/-- C8 (amended): the seed peers launched in the initial fan-out, which are the
first `alpha` entries of the seed list, are appended to `results` at launch
time and stay at the front of the accumulated results; when the seed list has
at most `alpha` entries every seed peer is in the accumulated results. -/
theorem launched_seeds_in_results (alpha : Int) (seed : List ID) (resps : List (List ID)) :
    (startLookup alpha seed).launched = seed.take alpha.toNat ∧
      (startLookup alpha seed).results = seed.take alpha.toNat ∧
      (∃ more, (lookup alpha seed resps).results = seed.take alpha.toNat ++ more) ∧
      ((seed.length : Int) ≤ alpha → ∀ p ∈ seed, p ∈ (lookup alpha seed resps).results) := by
  have hres := lookup_results alpha seed resps
  rw [take_launchCount] at hres
  refine ⟨?_, ?_, ⟨_, hres⟩, ?_⟩
  · rw [startLookup_eq, take_launchCount]
  · rw [startLookup_eq, take_launchCount]
  · intro hlen p hp
    rw [hres, List.take_of_length_le (by omega)]
    exact List.mem_append_left _ hp

/-- Witness of C8 (amended): two seeds with `alpha = 3`. -/
theorem launched_seeds_in_results_witness :
    (([peerA, peerB].length : Int) ≤ 3 ∧ peerB ∈ [peerA, peerB]) ∧
      peerB ∈ (lookup 3 [peerA, peerB] [[], [peerC], []]).results :=
  ⟨⟨by decide, by decide⟩,
    (launched_seeds_in_results 3 [peerA, peerB] [[], [peerC], []]).2.2.2 (by decide)
      peerB (by decide)⟩

/-! ## Accumulated results -/

theorem accumulateSpec_eq : ∀ (received : List (List ID)) (visited : List String)
    (acc : List ID),
    accumulateSpec visited acc received = acc ++ newCandidates visited received.flatten
  | [], visited, acc => by simp [accumulateSpec, newCandidates]
  | peers :: rest, visited, acc => by
    rw [accumulateSpec, accumulateSpec_eq rest, List.flatten_cons, newCandidates_append,
      List.append_assoc]

theorem launched_subset_results (alpha : Int) (seed : List ID) (resps : List (List ID)) :
    ∀ p ∈ (lookup alpha seed resps).launched, p ∈ (lookup alpha seed resps).results :=
  fun _ hp => (loopInv_lookup alpha seed resps).launched_sublist.subset hp

/-- C9: when the seed list has at most `alpha` peers, the accumulated results
before sort and cap are the seed peers followed, for each received response in
arrival order, by each candidate whose key had not been visited when it was
folded in (an equality of lists, hence of multisets); and every peer for which a
query was launched is in the accumulated results, whatever its query
returned.  The hypothesis `alpha ≥ 1` of the claim is not needed. -/
theorem accumulated_results (alpha : Int) (seed : List ID) (resps : List (List ID))
    (hseed : (seed.length : Int) ≤ alpha) :
    (lookup alpha seed resps).results =
        accumulateSpec (seed.map ID.PublicKeyHex) seed
          (resps.take (lookup alpha seed resps).received) ∧
      ∀ p ∈ (lookup alpha seed resps).launched, p ∈ (lookup alpha seed resps).results := by
  refine ⟨?_, launched_subset_results alpha seed resps⟩
  rw [accumulateSpec_eq, lookup_results, take_launchCount, List.take_of_length_le (by omega)]
  congr 1
  apply newCandidates_congr
  intro k
  rw [mem_markVisited]
  simp

/-- Witness of C9, the scenario of the specification: seed `[A, B]` with
`alpha = 3`; `A` times out, `B` returns `[C]`, `C` returns nothing; the
accumulated results are `A`, `B`, `C`. -/
theorem accumulated_results_witness :
    (([peerA, peerB].length : Int) ≤ 3) ∧
      ((lookup 3 [peerA, peerB] [[], [peerC], []]).results =
          accumulateSpec ([peerA, peerB].map ID.PublicKeyHex) [peerA, peerB]
            ([[], [peerC], []].take (lookup 3 [peerA, peerB] [[], [peerC], []]).received) ∧
        ∀ p ∈ (lookup 3 [peerA, peerB] [[], [peerC], []]).launched,
          p ∈ (lookup 3 [peerA, peerB] [[], [peerC], []]).results) ∧
      (lookup 3 [peerA, peerB] [[], [peerC], []]).results = [peerA, peerB, peerC] :=
  ⟨by decide, accumulated_results 3 [peerA, peerB] [[], [peerC], []] (by decide), by decide⟩

/-! ## Failed queries -/

/-- Counterexample to C10 as stated: the only query of the lookup is the one of
`A`; it fails, so the single value received is the empty list; `A` is in the
returned results all the same. -/
theorem failed_peer_in_output :
    (lookup 3 [peerA] [[]]).launched = [peerA] ∧
      (lookup 3 [peerA] [[]]).received = 1 ∧
      bootstrapPeers 20 peerT 3 [peerA] [[]] = some [peerA] := by
  decide

/-- C10 (amended): a failed query contributes nothing and removes nothing.
Folding the empty value it delivers into any lookup state leaves `results` and
`visited` unchanged; every peer for which a query was launched, failed or not,
is in the accumulated results, and in the returned list whenever the cut-off
does not apply. -/
theorem failed_query_keeps_results (bucketSize : Nat) (target : ID) (alpha : Int)
    (seed : List ID) (resps : List (List ID)) :
    (∀ st : LookupState,
        (receive alpha [] st).results = st.results ∧
          (receive alpha [] st).visited = st.visited) ∧
      (∀ p ∈ (lookup alpha seed resps).launched, p ∈ (lookup alpha seed resps).results) ∧
      ∀ out, bootstrapPeers bucketSize target alpha seed resps = some out →
        (lookup alpha seed resps).results.length ≤ bucketSize →
        ∀ p ∈ (lookup alpha seed resps).launched, p ∈ out := by
  refine ⟨?_, launched_subset_results alpha seed resps, ?_⟩
  · intro st
    rw [receive_eq]
    simp [newCandidates, markVisited]
  · intro out h hlen p hp
    obtain ⟨-, rfl⟩ := bootstrapPeers_eq_some h
    have hperm := sortByDistance_perm target (lookup alpha seed resps).results
    rw [List.take_of_length_le (by rw [hperm.length_eq]; exact hlen)]
    exact hperm.mem_iff.2 (launched_subset_results alpha seed resps p hp)

/-- Witness of C10 (amended): `A` fails, `B` returns `[C]`, `C` fails; all three
are returned. -/
theorem failed_query_keeps_results_witness :
    (bootstrapPeers 20 peerT 3 [peerA, peerB] [[], [peerC], []] = some [peerA, peerB, peerC] ∧
        (lookup 3 [peerA, peerB] [[], [peerC], []]).results.length ≤ 20 ∧
        peerA ∈ (lookup 3 [peerA, peerB] [[], [peerC], []]).launched) ∧
      peerA ∈ [peerA, peerB, peerC] :=
  ⟨⟨by decide, by decide, by decide⟩,
    (failed_query_keeps_results 20 peerT 3 [peerA, peerB] [[], [peerC], []]).2.2
      [peerA, peerB, peerC] (by decide) (by decide) peerA (by decide)⟩

/-! ## The query primitive: delivered value -/

theorem queryPeer_dial_error {net : Network} {peerId : ID} (targetId : ID) {e : String}
    (h : net.Dial peerId.Address = .error e) :
    queryPeer net peerId targetId = [.dial peerId.Address, .send []] := by
  simp only [queryPeer, h]

theorem queryPeer_request_error {net : Network} {peerId targetId : ID} {client : Client}
    {e : String} (h : net.Dial peerId.Address = .ok client)
    (hr : client.Request (lookupRequest targetId) = .error e) :
    queryPeer net peerId targetId =
      [.dial peerId.Address, .request (lookupRequest targetId), .send []] := by
  unfold lookupRequest at hr
  simp only [queryPeer, h, hr]
  rfl

theorem queryPeer_response {net : Network} {peerId targetId : ID} {client : Client}
    {peers : List ID} (h : net.Dial peerId.Address = .ok client)
    (hr : client.Request (lookupRequest targetId) = .ok (.LookupNodeResponse peers)) :
    queryPeer net peerId targetId =
      [.dial peerId.Address, .request (lookupRequest targetId), .send peers] := by
  unfold lookupRequest at hr
  simp only [queryPeer, h, hr]
  rfl

theorem queryPeer_unexpected {net : Network} {peerId targetId : ID} {client : Client}
    {m : Message} (h : net.Dial peerId.Address = .ok client)
    (hr : client.Request (lookupRequest targetId) = .ok m)
    (hm : ∀ peers, m ≠ .LookupNodeResponse peers) :
    queryPeer net peerId targetId =
      [.dial peerId.Address, .request (lookupRequest targetId), .send []] := by
  unfold lookupRequest at hr
  cases m with
  | LookupNodeResponse peers => exact absurd rfl (hm peers)
  | LookupNodeRequest t =>
    simp only [queryPeer, h, hr]
    rfl
  | Other name =>
    simp only [queryPeer, h, hr]
    rfl

/-- C11: the value `queryPeer` delivers on the channel `responses` is the list
`Peers` of the response, verbatim, when `Dial` succeeds, `Request` succeeds and
the response is a `LookupNodeResponse`; it is the empty list when `Dial` fails,
when `Request` fails (error or timeout), and when the response is of any other
type.  The function returns no value, so no error reaches the caller. -/
theorem queryPeer_delivers (net : Network) (peerId targetId : ID) :
    (∀ client peers, net.Dial peerId.Address = .ok client →
        client.Request (lookupRequest targetId) = .ok (.LookupNodeResponse peers) →
        sends (queryPeer net peerId targetId) = [peers]) ∧
      (∀ e, net.Dial peerId.Address = .error e →
        sends (queryPeer net peerId targetId) = [[]]) ∧
      (∀ client e, net.Dial peerId.Address = .ok client →
        client.Request (lookupRequest targetId) = .error e →
        sends (queryPeer net peerId targetId) = [[]]) ∧
      (∀ client m, net.Dial peerId.Address = .ok client →
        client.Request (lookupRequest targetId) = .ok m →
        (∀ peers, m ≠ .LookupNodeResponse peers) →
        sends (queryPeer net peerId targetId) = [[]]) := by
  refine ⟨?_, ?_, ?_, ?_⟩
  · intro client peers h hr
    rw [queryPeer_response h hr]
    rfl
  · intro e h
    rw [queryPeer_dial_error targetId h]
    rfl
  · intro client e h hr
    rw [queryPeer_request_error h hr]
    rfl
  · intro client m h hr hm
    rw [queryPeer_unexpected h hr hm]
    rfl

/-- Witness of C11: a peer that answers `[C, A]`, a network that is down, a
request that times out and a response of another type. -/
theorem queryPeer_delivers_witness :
    sends (queryPeer (netWith (.ok (.LookupNodeResponse [peerC, peerA]))) peerB peerT) =
        [[peerC, peerA]] ∧
      sends (queryPeer netDown peerB peerT) = [[]] ∧
      sends (queryPeer (netWith (.error "request: timeout")) peerB peerT) = [[]] ∧
      sends (queryPeer (netWith (.ok (.Other "Ping"))) peerB peerT) = [[]] :=
  ⟨(queryPeer_delivers (netWith (.ok (.LookupNodeResponse [peerC, peerA]))) peerB peerT).1
      { Request := fun _ => .ok (.LookupNodeResponse [peerC, peerA]) } [peerC, peerA] rfl rfl,
    (queryPeer_delivers netDown peerB peerT).2.1 "dial: connection refused" rfl,
    (queryPeer_delivers (netWith (.error "request: timeout")) peerB peerT).2.2.1
      { Request := fun _ => .error "request: timeout" } "request: timeout" rfl rfl,
    (queryPeer_delivers (netWith (.ok (.Other "Ping"))) peerB peerT).2.2.2
      { Request := fun _ => .ok (.Other "Ping") } (.Other "Ping") rfl rfl
      (fun _ h => Message.noConfusion h)⟩

/-! ## The query primitive: one send per call -/

/-- C12: on every execution path of `queryPeer` exactly one value is sent on the
channel `responses`, and `Request` is not attempted after a failed `Dial` (at
most one request is attempted in any case). -/
theorem queryPeer_sends_once (net : Network) (peerId targetId : ID) :
    (sends (queryPeer net peerId targetId)).length = 1 ∧
      ((∃ e, net.Dial peerId.Address = .error e) →
        requests (queryPeer net peerId targetId) = []) ∧
      (requests (queryPeer net peerId targetId)).length ≤ 1 := by
  cases h : net.Dial peerId.Address with
  | error e =>
    rw [queryPeer_dial_error targetId h]
    exact ⟨rfl, fun _ => rfl, Nat.zero_le _⟩
  | ok client =>
    have hno : ¬ ∃ e, (Except.ok client : Except String Client) = .error e := by
      rintro ⟨e, he⟩
      cases he
    cases hr : client.Request (lookupRequest targetId) with
    | error e =>
      rw [queryPeer_request_error h hr]
      exact ⟨rfl, fun hx => absurd hx hno, Nat.le_refl _⟩
    | ok m =>
      by_cases hm : ∃ peers, m = .LookupNodeResponse peers
      · obtain ⟨peers, rfl⟩ := hm
        rw [queryPeer_response h hr]
        exact ⟨rfl, fun hx => absurd hx hno, Nat.le_refl _⟩
      · rw [queryPeer_unexpected h hr (fun peers hp => hm ⟨peers, hp⟩)]
        exact ⟨rfl, fun hx => absurd hx hno, Nat.le_refl _⟩

/-- Witness of C12: with the network down, one empty value is sent and no
request is attempted. -/
theorem queryPeer_sends_once_witness :
    (∃ e, netDown.Dial peerB.Address = .error e) ∧
      (sends (queryPeer netDown peerB peerT)).length = 1 ∧
      requests (queryPeer netDown peerB peerT) = [] :=
  ⟨⟨"dial: connection refused", rfl⟩,
    (queryPeer_sends_once netDown peerB peerT).1,
    (queryPeer_sends_once netDown peerB peerT).2.1 ⟨"dial: connection refused", rfl⟩⟩

/-! ## Lookups that launch nothing -/

theorem startLookup_no_launch (alpha : Int) (seed : List ID)
    (h : seed = [] ∨ alpha ≤ 0) :
    (startLookup alpha seed).launched = [] ∧ (startLookup alpha seed).results = [] ∧
      (startLookup alpha seed).pending = 0 ∧ (startLookup alpha seed).received = 0 := by
  have hk : launchCount alpha 0 seed = 0 := by
    unfold launchCount
    rcases h with rfl | h
    · simp
    · have : (alpha - 0).toNat = 0 := by omega
      rw [this, Nat.min_zero]
  rw [startLookup_eq, hk]
  simp

theorem lookup_no_launch (alpha : Int) (seed : List ID) (resps : List (List ID))
    (h : seed = [] ∨ alpha ≤ 0) :
    lookup alpha seed resps = startLookup alpha seed := by
  unfold lookup
  exact expansionLoop_done alpha resps _ (by rw [(startLookup_no_launch alpha seed h).2.2.1])

theorem bootstrapPeers_no_launch (bucketSize : Nat) (target : ID) (alpha : Int)
    (seed : List ID) (resps : List (List ID)) (h : seed = [] ∨ alpha ≤ 0) :
    bootstrapPeers bucketSize target alpha seed resps = some [] := by
  obtain ⟨-, hres, hpen, -⟩ := startLookup_no_launch alpha seed h
  unfold bootstrapPeers
  simp only [lookup_no_launch alpha seed resps h, hpen, hres]
  simp [sortByDistance, sortSlice, capResults]

/-- C13: when `FindClosestPeers` returns the empty sequence, `bootstrapPeers`
returns the empty sequence, launches no query and receives nothing from the
channel `responses`: the result is there whatever may arrive (`resps`), also
when nothing does, and the state after the lookup is the one before the
expansion loop. -/
theorem bootstrapPeers_empty_seed (bucketSize : Nat) (target : ID) (alpha : Int)
    (resps : List (List ID)) :
    bootstrapPeers bucketSize target alpha [] resps = some [] ∧
      bootstrapPeers bucketSize target alpha [] [] = some [] ∧
      (lookup alpha [] resps).launched = [] ∧
      (lookup alpha [] resps).received = 0 ∧
      (startLookup alpha []).pending = 0 ∧
      lookup alpha [] resps = startLookup alpha [] := by
  have h := startLookup_no_launch alpha [] (Or.inl rfl)
  have hl := lookup_no_launch alpha [] resps (Or.inl rfl)
  refine ⟨bootstrapPeers_no_launch bucketSize target alpha [] resps (Or.inl rfl),
    bootstrapPeers_no_launch bucketSize target alpha [] [] (Or.inl rfl), ?_, ?_, h.2.2.1, hl⟩
  · rw [hl]
    exact h.1
  · rw [hl]
    exact h.2.2.2

/-- C19: for `alpha ≤ 0` and every seed list, `bootstrapPeers` launches no query,
receives nothing from the channel `responses` (the result is there whatever may
arrive, also when nothing does) and returns the empty list. -/
theorem bootstrapPeers_nonpositive_alpha (bucketSize : Nat) (target : ID) (alpha : Int)
    (seed : List ID) (resps : List (List ID)) (halpha : alpha ≤ 0) :
    bootstrapPeers bucketSize target alpha seed resps = some [] ∧
      bootstrapPeers bucketSize target alpha seed [] = some [] ∧
      (lookup alpha seed resps).launched = [] ∧
      (lookup alpha seed resps).received = 0 ∧
      (startLookup alpha seed).pending = 0 ∧
      lookup alpha seed resps = startLookup alpha seed := by
  have h := startLookup_no_launch alpha seed (Or.inr halpha)
  have hl := lookup_no_launch alpha seed resps (Or.inr halpha)
  refine ⟨bootstrapPeers_no_launch bucketSize target alpha seed resps (Or.inr halpha),
    bootstrapPeers_no_launch bucketSize target alpha seed [] (Or.inr halpha), ?_, ?_, h.2.2.1, hl⟩
  · rw [hl]
    exact h.1
  · rw [hl]
    exact h.2.2.2

/-- Witness of C19: `alpha = 0` and `alpha = -2` with the seed list `[A, B]`. -/
theorem bootstrapPeers_nonpositive_alpha_witness :
    ((0 : Int) ≤ 0 ∧ bootstrapPeers 20 peerT 0 [peerA, peerB] [[peerC]] = some []) ∧
      ((-2 : Int) ≤ 0 ∧ (lookup (-2) [peerA, peerB] [[peerC]]).launched = []) :=
  ⟨⟨by decide,
      (bootstrapPeers_nonpositive_alpha 20 peerT 0 [peerA, peerB] [[peerC]] (by decide)).1⟩,
    ⟨by decide,
      (bootstrapPeers_nonpositive_alpha 20 peerT (-2) [peerA, peerB] [[peerC]]
        (by decide)).2.2.1⟩⟩

/-! ## Accounting of the outstanding queries -/

/-- C15: at every point of a run `pending` is the number of queries launched so
far minus the number of responses received so far.  Consequently, when the
lookup returns, `pending` is `0`, the queue is empty and as many responses were
received as queries were launched. -/
theorem pending_accounting (bucketSize : Nat) (target : ID) (alpha : Int) (seed : List ID)
    (resps : List (List ID)) :
    (lookup alpha seed resps).pending =
        ((lookup alpha seed resps).launched.length : Int) -
          ((lookup alpha seed resps).received : Int) ∧
      ∀ out, bootstrapPeers bucketSize target alpha seed resps = some out →
        (lookup alpha seed resps).pending = 0 ∧
          (lookup alpha seed resps).queue = [] ∧
          (lookup alpha seed resps).received = (lookup alpha seed resps).launched.length := by
  have hinv := loopInv_lookup alpha seed resps
  refine ⟨hinv.pending_eq, ?_⟩
  intro out h
  have hle := (bootstrapPeers_eq_some h).1
  have h1 := hinv.pending_eq
  have h2 := hinv.pending_nonneg
  exact ⟨by omega, hinv.queue_nil, by omega⟩

/-- Witness of C15: seed `[A, B]`, `B` returns `[C]`; three queries are launched
and three responses received. -/
theorem pending_accounting_witness :
    bootstrapPeers 20 peerT 3 [peerA, peerB] [[], [peerC], []] = some [peerA, peerB, peerC] ∧
      ((lookup 3 [peerA, peerB] [[], [peerC], []]).pending = 0 ∧
        (lookup 3 [peerA, peerB] [[], [peerC], []]).queue = [] ∧
        (lookup 3 [peerA, peerB] [[], [peerC], []]).received =
          (lookup 3 [peerA, peerB] [[], [peerC], []]).launched.length) :=
  ⟨by decide,
    (pending_accounting 20 peerT 3 [peerA, peerB] [[], [peerC], []]).2 [peerA, peerB, peerC]
      (by decide)⟩

/-! ## Frame of an empty response -/

/-- C16: folding an empty response into the state of a lookup changes nothing
but `pending` (and the count of received values): `visited`, `results` and the
log of launched queries are unchanged, the queue is and stays empty, and
`pending` decreases by exactly one.  What a later response contributes to
`results` and `visited` is the same with and without the empty response. -/
theorem receive_empty_frame (alpha : Int) (seed : List ID) (resps : List (List ID)) :
    (receive alpha [] (lookup alpha seed resps)).visited = (lookup alpha seed resps).visited ∧
      (receive alpha [] (lookup alpha seed resps)).results =
        (lookup alpha seed resps).results ∧
      (lookup alpha seed resps).queue = [] ∧
      (receive alpha [] (lookup alpha seed resps)).queue = [] ∧
      (receive alpha [] (lookup alpha seed resps)).launched =
        (lookup alpha seed resps).launched ∧
      (receive alpha [] (lookup alpha seed resps)).pending =
        (lookup alpha seed resps).pending - 1 ∧
      ∀ peers : List ID,
        (receive alpha peers (receive alpha [] (lookup alpha seed resps))).results =
            (receive alpha peers (lookup alpha seed resps)).results ∧
          (receive alpha peers (receive alpha [] (lookup alpha seed resps))).visited =
            (receive alpha peers (lookup alpha seed resps)).visited := by
  have hq := (loopInv_lookup alpha seed resps).queue_nil
  have e : receive alpha [] (lookup alpha seed resps) =
      { lookup alpha seed resps with
        pending := (lookup alpha seed resps).pending - 1
        received := (lookup alpha seed resps).received + 1 } := by
    rw [receive_eq, hq]
    simp [newCandidates, markVisited, launchCount, hq]
  refine ⟨by rw [e], by rw [e], hq, by rw [e]; exact hq, by rw [e], by rw [e], ?_⟩
  intro peers
  rw [e, receive_eq, receive_eq]
  exact ⟨rfl, rfl⟩

/-! ## Which candidates are queried -/

theorem expansionLoop_launched_mono (alpha : Int) (rest : List (List ID)) (st : LookupState) :
    ∀ q ∈ st.launched, q ∈ (expansionLoop alpha rest st).launched := by
  refine expansionLoop_induction alpha (fun s => ∀ q ∈ st.launched, q ∈ s.launched) ?_ rest st
    (fun _ hq => hq)
  intro peers s hs _ q hq
  rw [receive_eq]
  exact List.mem_append_left _ (hs q hq)

theorem expansionLoop_launched_new (alpha : Int) (rest : List (List ID)) (st : LookupState)
    (hqueue : st.queue = []) :
    ∀ q ∈ (expansionLoop alpha rest st).launched,
      q ∈ st.launched ∨ q.PublicKeyHex ∉ st.visited := by
  have key := expansionLoop_induction alpha
    (fun s => s.queue = [] ∧ (∀ k ∈ st.visited, k ∈ s.visited) ∧
      ∀ q ∈ s.launched, q ∈ st.launched ∨ q.PublicKeyHex ∉ st.visited) ?_ rest st
    ⟨hqueue, fun _ hk => hk, fun _ hq => Or.inl hq⟩
  · exact key.2.2
  · intro peers s hs _
    obtain ⟨hsq, hvis, hl⟩ := hs
    rw [receive_eq, hsq, List.nil_append]
    refine ⟨rfl, ?_, ?_⟩
    · intro k hk
      simp only
      rw [mem_markVisited]
      exact Or.inl (hvis k hk)
    · intro q hq
      simp only at hq
      rcases List.mem_append.1 hq with hq | hq
      · exact hl q hq
      · right
        intro hv
        exact newCandidates_not_visited peers s.visited q (List.mem_of_mem_take hq)
          (hvis _ hv)

theorem lookup_snoc (alpha : Int) (seed : List ID) (resps : List (List ID)) (peers : List ID)
    (rest : List (List ID)) (hpos : 0 < (lookup alpha seed resps).pending) :
    lookup alpha seed (resps ++ peers :: rest) =
      expansionLoop alpha rest (receive alpha peers (lookup alpha seed resps)) := by
  unfold lookup at hpos ⊢
  rw [expansionLoop_append, expansionLoop, if_pos hpos]

theorem dropped_never_launched (alpha : Int) (seed : List ID) (resps : List (List ID))
    (peers : List ID) (rest : List (List ID))
    (hpos : 0 < (lookup alpha seed resps).pending) (c : ID)
    (hc : c ∈ (newCandidates (lookup alpha seed resps).visited peers).drop
      (launchCount alpha ((lookup alpha seed resps).pending - 1)
        (newCandidates (lookup alpha seed resps).visited peers))) :
    ∀ q ∈ (lookup alpha seed (resps ++ peers :: rest)).launched,
      q.PublicKeyHex ≠ c.PublicKeyHex := by
  intro q hq hkey
  have hinv := loopInv_lookup alpha seed resps
  have hinv1 := loopInv_receive alpha peers _ hinv hpos
  have hcnew := List.mem_of_mem_drop hc
  have hcfresh := newCandidates_not_visited peers _ c hcnew
  rw [lookup_snoc alpha seed resps peers rest hpos] at hq
  rcases expansionLoop_launched_new alpha rest _ hinv1.queue_nil q hq with h1 | h1
  · rw [receive_eq, hinv.queue_nil, List.nil_append] at h1
    simp only at h1
    rcases List.mem_append.1 h1 with h2 | h2
    · exact hcfresh (hkey ▸ hinv.results_visited q (hinv.launched_sublist.subset h2))
    · have hnd := newCandidates_nodup peers (lookup alpha seed resps).visited
      rw [← List.take_append_drop
        (launchCount alpha ((lookup alpha seed resps).pending - 1)
          (newCandidates (lookup alpha seed resps).visited peers))
        (newCandidates (lookup alpha seed resps).visited peers), List.map_append] at hnd
      exact (List.nodup_append.1 hnd).2.2 (List.mem_map_of_mem _ h2)
        (hkey ▸ List.mem_map_of_mem _ hc)
  · apply h1
    rw [hkey, receive_eq]
    simp only
    rw [mem_markVisited]
    exact Or.inr (List.mem_map_of_mem _ hcnew)

theorem launched_count_le_one (alpha : Int) (seed : List ID) (resps : List (List ID)) (D : ID)
    (hD : D.PublicKeyHex ∉ seed.map ID.PublicKeyHex) :
    ((lookup alpha seed resps).launched.map ID.PublicKeyHex).count D.PublicKeyHex ≤ 1 := by
  have hsub := ((loopInv_lookup alpha seed resps).launched_sublist.map ID.PublicKeyHex).count_le
    D.PublicKeyHex
  rw [lookup_results, List.map_append, List.count_append] at hsub
  have h0 : ((seed.take (launchCount alpha 0 seed)).map ID.PublicKeyHex).count
      D.PublicKeyHex = 0 := by
    rw [List.count_eq_zero]
    intro hmem
    exact hD (((List.take_sublist _ _).map _).subset hmem)
  have h1 := List.nodup_iff_count_le_one.1
    (newCandidates_nodup ((resps.take (lookup alpha seed resps).received).flatten)
      (markVisited [] seed)) D.PublicKeyHex
  omega

/-- Counterexample to C14 as stated: `alpha = 2`, seed `[A, B]`; `A` returns
`[C, D]` while one slot is free, so only `C` is queried and the queue is
emptied; `B` returns `[D]`, which is visited by then.  `D` is returned by two
responders and no query is ever launched for it. -/
theorem overlapping_candidate_never_queried :
    peerD.PublicKeyHex ∉ [peerA, peerB].map ID.PublicKeyHex ∧
      peerD ∈ [peerC, peerD] ∧ peerD ∈ [peerD] ∧
      (lookup 2 [peerA, peerB] [[peerC, peerD], [peerD], []]).pending = 0 ∧
      (lookup 2 [peerA, peerB] [[peerC, peerD], [peerD], []]).received = 3 ∧
      (lookup 2 [peerA, peerB] [[peerC, peerD], [peerD], []]).launched =
        [peerA, peerB, peerC] ∧
      ((lookup 2 [peerA, peerB] [[peerC, peerD], [peerD], []]).launched.map
        ID.PublicKeyHex).count peerD.PublicKeyHex = 0 := by
  decide

/-- C14 (amended): a candidate `D` whose key is not a key of the seed list is
queried at most once, however many responders return it.  In the step in which
a response `peers` is folded in, `D` is queried exactly once in the whole
lookup when it is among the new candidates that get a free slot, and never when
it is among the new candidates left over. -/
theorem candidate_queried_at_most_once (alpha : Int) (seed : List ID)
    (resps : List (List ID)) (peers : List ID) (rest : List (List ID)) (D : ID)
    (hD : D.PublicKeyHex ∉ seed.map ID.PublicKeyHex) :
    ((lookup alpha seed resps).launched.map ID.PublicKeyHex).count D.PublicKeyHex ≤ 1 ∧
      (0 < (lookup alpha seed resps).pending →
        D ∈ (newCandidates (lookup alpha seed resps).visited peers).take
          (launchCount alpha ((lookup alpha seed resps).pending - 1)
            (newCandidates (lookup alpha seed resps).visited peers)) →
        ((lookup alpha seed (resps ++ peers :: rest)).launched.map
          ID.PublicKeyHex).count D.PublicKeyHex = 1) ∧
      (0 < (lookup alpha seed resps).pending →
        D ∈ (newCandidates (lookup alpha seed resps).visited peers).drop
          (launchCount alpha ((lookup alpha seed resps).pending - 1)
            (newCandidates (lookup alpha seed resps).visited peers)) →
        ((lookup alpha seed (resps ++ peers :: rest)).launched.map
          ID.PublicKeyHex).count D.PublicKeyHex = 0) := by
  refine ⟨launched_count_le_one alpha seed resps D hD, ?_, ?_⟩
  · intro hpos hmem
    have hle := launched_count_le_one alpha seed (resps ++ peers :: rest) D hD
    have hin : D ∈ (lookup alpha seed (resps ++ peers :: rest)).launched := by
      rw [lookup_snoc alpha seed resps peers rest hpos]
      apply expansionLoop_launched_mono
      rw [receive_eq, (loopInv_lookup alpha seed resps).queue_nil, List.nil_append]
      exact List.mem_append_right _ hmem
    have hpos1 := List.count_pos_iff.2 (List.mem_map_of_mem ID.PublicKeyHex hin)
    omega
  · intro hpos hmem
    rw [List.count_eq_zero]
    intro hk
    obtain ⟨q, hq, hqk⟩ := List.mem_map.1 hk
    exact dropped_never_launched alpha seed resps peers rest hpos D hmem q hq hqk

/-- Witness of C14 (amended): `alpha = 3`, seed `[A, B, T]`; the first response
is `[C, D]` and arrives with one slot free, a later one is `[D]`: `C` is queried
exactly once. -/
theorem candidate_queried_at_most_once_witness :
    (peerC.PublicKeyHex ∉ [peerA, peerB, peerT].map ID.PublicKeyHex ∧
        0 < (lookup 3 [peerA, peerB, peerT] []).pending ∧
        peerC ∈ (newCandidates (lookup 3 [peerA, peerB, peerT] []).visited
          [peerC, peerD]).take
            (launchCount 3 ((lookup 3 [peerA, peerB, peerT] []).pending - 1)
              (newCandidates (lookup 3 [peerA, peerB, peerT] []).visited [peerC, peerD]))) ∧
      ((lookup 3 [peerA, peerB, peerT] ([] ++ [peerC, peerD] :: [[peerD], [], []])).launched.map
        ID.PublicKeyHex).count peerC.PublicKeyHex = 1 :=
  ⟨⟨by decide, by decide, by decide⟩,
    (candidate_queried_at_most_once 3 [peerA, peerB, peerT] [] [peerC, peerD]
      [[peerD], [], []] peerC (by decide)).2.1 (by decide) (by decide)⟩

/-! ## Refill after a response -/

/-- C17: in the expansion loop with `alpha ≥ 1`, when a response `peers` is
received in a state with `pending = p` once decremented and the response holds
`n` new candidates `new` (first occurrences of keys not yet visited, in response
order), exactly `k = min (alpha - p) n` queries are launched, for the first `k`
candidates of `new`; `k ≥ 1` whenever `n ≥ 1`.  All of `new` is appended to
`results` and marked visited, the queue is left empty, and no query is launched
for a remaining candidate in the rest of the lookup. -/
theorem refill_after_response (alpha : Int) (seed : List ID) (resps : List (List ID))
    (peers : List ID) (st : LookupState) (new : List ID) (p : Int) (n : Nat)
    (halpha : 1 ≤ alpha) (hst : st = lookup alpha seed resps) (hpos : 0 < st.pending)
    (hp : p = st.pending - 1) (hnew : new = newCandidates st.visited peers)
    (hn : n = new.length) :
    ∃ k : Nat, (k : Int) = min (alpha - p) (n : Int) ∧
      (receive alpha peers st).launched = st.launched ++ new.take k ∧
      (1 ≤ n → 1 ≤ k) ∧
      (receive alpha peers st).results = st.results ++ new ∧
      (∀ c ∈ new, c.PublicKeyHex ∈ (receive alpha peers st).visited) ∧
      (receive alpha peers st).queue = [] ∧
      ∀ rest : List (List ID), ∀ c ∈ new.drop k,
        ∀ q ∈ (lookup alpha seed (resps ++ peers :: rest)).launched,
          q.PublicKeyHex ≠ c.PublicKeyHex := by
  subst hst hp hnew hn
  have hinv := loopInv_lookup alpha seed resps
  have hle := hinv.pending_le
  refine ⟨launchCount alpha ((lookup alpha seed resps).pending - 1)
    (newCandidates (lookup alpha seed resps).visited peers), ?_, ?_, ?_, ?_, ?_, ?_, ?_⟩
  · unfold launchCount
    omega
  · rw [receive_eq, hinv.queue_nil, List.nil_append]
  · unfold launchCount
    omega
  · rw [receive_eq]
  · intro c hc
    rw [receive_eq]
    simp only
    rw [mem_markVisited]
    exact Or.inr (List.mem_map_of_mem _ hc)
  · rw [receive_eq]
  · intro rest c hc
    exact dropped_never_launched alpha seed resps peers rest hpos c hc

/-- Witness of C17: `alpha = 2`, seed `[A, B]`; the response `[C, A, D, C]` holds
the two new candidates `C` and `D` and arrives with `pending = 1` once
decremented. -/
theorem refill_after_response_witness :
    ((1 : Int) ≤ 2 ∧ 0 < (lookup 2 [peerA, peerB] []).pending) ∧
      ∃ k : Nat, (k : Int) = min (2 - 1) ((2 : Nat) : Int) ∧
        (receive 2 [peerC, peerA, peerD, peerC] (lookup 2 [peerA, peerB] [])).launched =
          (lookup 2 [peerA, peerB] []).launched ++ [peerC, peerD].take k ∧
        (1 ≤ 2 → 1 ≤ k) ∧
        (receive 2 [peerC, peerA, peerD, peerC] (lookup 2 [peerA, peerB] [])).results =
          (lookup 2 [peerA, peerB] []).results ++ [peerC, peerD] ∧
        (∀ c ∈ [peerC, peerD], c.PublicKeyHex ∈
          (receive 2 [peerC, peerA, peerD, peerC] (lookup 2 [peerA, peerB] [])).visited) ∧
        (receive 2 [peerC, peerA, peerD, peerC] (lookup 2 [peerA, peerB] [])).queue = [] ∧
        ∀ rest : List (List ID), ∀ c ∈ [peerC, peerD].drop k,
          ∀ q ∈ (lookup 2 [peerA, peerB]
              ([] ++ [peerC, peerA, peerD, peerC] :: rest)).launched,
            q.PublicKeyHex ≠ c.PublicKeyHex :=
  ⟨⟨by decide, by decide⟩,
    refill_after_response 2 [peerA, peerB] [] [peerC, peerA, peerD, peerC]
      (lookup 2 [peerA, peerB] []) [peerC, peerD] 1 2
      (by decide) rfl (by decide) (by decide) (by decide) (by decide)⟩

/-! ## Dependence on the arrival order -/

theorem scheduledLoop_sound (alpha : Int) (reply : ID → List ID) :
    ∀ (order : List Nat) (outstanding : List ID) (st s : LookupState),
      scheduledLoop alpha reply order outstanding st = some s →
      s.pending ≤ 0 ∧
        ∃ resps : List (List ID), resps.length = order.length ∧
          s = expansionLoop alpha resps st
  | [], _, st, s, h => by
    unfold scheduledLoop at h
    split at h
    · cases h
    · cases h
      exact ⟨by omega, [], rfl, rfl⟩
  | i :: rest, outstanding, st, s, h => by
    unfold scheduledLoop at h
    split at h
    · rename_i hpos
      split at h
      · cases h
      · rename_i contact _
        obtain ⟨hs, resps, hlen, heq⟩ := scheduledLoop_sound alpha reply rest _ _ s h
        refine ⟨hs, reply contact :: resps, by simp [hlen], ?_⟩
        rw [expansionLoop, if_pos hpos]
        exact heq
    · cases h

/-- C18: the accumulated results are not determined by the peer-knowledge graph
alone.  With `alpha = 2`, the seed list `[A, B]` and the fixed network
`exampleNet` (`A` knows `C` and `D`, `D` knows `E`, `B` fails), two arrival
orders give different sets.  When the answer of `A` arrives first, one slot is
free: `C` is queried, `D` is dropped from the queue and `E` is never found.
When the failure of `B` arrives first, two slots are free for the answer of
`A`: `C` and `D` are queried and `D` reveals `E`. -/
theorem arrival_order_changes_results :
    networkLookup exampleNet peerT 2 [peerA, peerB] [0, 0, 0] =
        some (lookup 2 [peerA, peerB] [[peerC, peerD], [], []]) ∧
      networkLookup exampleNet peerT 2 [peerA, peerB] [1, 0, 0, 0, 0] =
        some (lookup 2 [peerA, peerB] [[], [peerC, peerD], [], [peerE], []]) ∧
      (lookup 2 [peerA, peerB] [[peerC, peerD], [], []]).results =
        [peerA, peerB, peerC, peerD] ∧
      (lookup 2 [peerA, peerB] [[], [peerC, peerD], [], [peerE], []]).results =
        [peerA, peerB, peerC, peerD, peerE] ∧
      peerE ∉ (lookup 2 [peerA, peerB] [[peerC, peerD], [], []]).results ∧
      peerE ∈ (lookup 2 [peerA, peerB] [[], [peerC, peerD], [], [peerE], []]).results ∧
      bootstrapPeers 20 peerT 2 [peerA, peerB] [[peerC, peerD], [], []] =
        some [peerA, peerB, peerC, peerD] ∧
      bootstrapPeers 20 peerT 2 [peerA, peerB] [[], [peerC, peerD], [], [peerE], []] =
        some [peerA, peerB, peerC, peerD, peerE] := by
  decide

end Discovery
